import Mathlib

/-!
# Verification of the Blockchain-ProofOfWork core

A shallow embedding of the `killianpinier/Blockchain-ProofOfWork` Rust
repository (block model, proof-of-work search, transaction hashing,
address encoding, ledger storage, mining engine and wallet transaction
builder), together with theorems settling the specification claims.

Modelling conventions:
* Rust byte buffers (`[u8; N]`, `Vec<u8>`) are `List Nat` with every byte
  `< 256`; machine integers are `Nat` with explicit `% 2^w` where the code
  can overflow.
* Rust `String` values are modelled as their UTF-8 byte lists; every string
  built by this code base (decimal renderings, hex encodings, Base58
  addresses) is ASCII, so a byte list is a faithful representation.
* `f32` values are modelled by their 32-bit IEEE-754 patterns (`Nat < 2^32`);
  arithmetic on them decodes to exact rationals, performs the operation and
  rounds to nearest-even, which is the IEEE behaviour of Rust `f32` for
  finite values.
* The cryptographic primitives (SHA-256, RIPEMD-160, Base58) live in
  external crates (`sha2`, `ripemd`, `base58`); they are modelled from the
  spec as the standard algorithms.  Elliptic-curve key derivation (`k256`)
  is external as well and enters the model only through the derived public
  key bytes.
* The unbounded proof-of-work loop is modelled with explicit fuel: `none`
  means the search is still running after `fuel` iterations.
-/

set_option maxRecDepth 1000000

namespace PoW

/-! ## 32-bit word primitives -/

/-- 32-bit rotate right. -/
def rotr32 (n x : Nat) : Nat := ((x >>> n) ||| (x <<< (32 - n))) % 4294967296

/-- 32-bit rotate left. -/
def rotl32 (n x : Nat) : Nat := ((x <<< n) ||| (x >>> (32 - n))) % 4294967296

/-- Addition modulo `2^32`. -/
def add32 (x y : Nat) : Nat := (x + y) % 4294967296

/-- Bitwise complement on 32 bits. -/
def not32 (x : Nat) : Nat := 4294967295 ^^^ x

/-- Big-endian 8-byte rendering of a 64-bit value. -/
def be64 (n : Nat) : List Nat :=
  [n >>> 56 % 256, n >>> 48 % 256, n >>> 40 % 256, n >>> 32 % 256,
   n >>> 24 % 256, n >>> 16 % 256, n >>> 8 % 256, n % 256]

/-- Little-endian 8-byte rendering of a 64-bit value. -/
def le64 (n : Nat) : List Nat :=
  [n % 256, n >>> 8 % 256, n >>> 16 % 256, n >>> 24 % 256,
   n >>> 32 % 256, n >>> 40 % 256, n >>> 48 % 256, n >>> 56 % 256]

/-- Big-endian 4-byte rendering of a 32-bit word. -/
def wordBytesBE (w : Nat) : List Nat := [w >>> 24 % 256, w >>> 16 % 256, w >>> 8 % 256, w % 256]

/-- Little-endian 4-byte rendering of a 32-bit word. -/
def wordBytesLE (w : Nat) : List Nat := [w % 256, w >>> 8 % 256, w >>> 16 % 256, w >>> 24 % 256]

/-- Group a byte list into big-endian 32-bit words (fuel-driven). -/
def bytesToWordsBE : Nat → List Nat → List Nat
  | 0, _ => []
  | _, [] => []
  | fuel+1, b0 :: b1 :: b2 :: b3 :: rest =>
      ((b0 % 256) * 16777216 + (b1 % 256) * 65536 + (b2 % 256) * 256 + b3 % 256)
        :: bytesToWordsBE fuel rest
  | _+1, _ => []

/-- Group a byte list into little-endian 32-bit words (fuel-driven). -/
def bytesToWordsLE : Nat → List Nat → List Nat
  | 0, _ => []
  | _, [] => []
  | fuel+1, b0 :: b1 :: b2 :: b3 :: rest =>
      ((b3 % 256) * 16777216 + (b2 % 256) * 65536 + (b1 % 256) * 256 + b0 % 256)
        :: bytesToWordsLE fuel rest
  | _+1, _ => []

/-- Split a word list into chunks of 16 (one hash block each). -/
def wordsToBlocks : Nat → List Nat → List (List Nat)
  | 0, _ => []
  | _, [] => []
  | fuel+1, l => l.take 16 :: wordsToBlocks fuel (l.drop 16)

/-! ## SHA-256 (the `sha2` crate primitive, modelled from the spec) -/

/-- The 64 SHA-256 round constants. -/
def shaK : List Nat :=
  [1116352408, 1899447441, 3049323471, 3921009573, 961987163, 1508970993, 2453635748, 2870763221,
   3624381080, 310598401, 607225278, 1426881987, 1925078388, 2162078206, 2614888103, 3248222580,
   3835390401, 4022224774, 264347078, 604807628, 770255983, 1249150122, 1555081692, 1996064986,
   2554220882, 2821834349, 2952996808, 3210313671, 3336571891, 3584528711, 113926993, 338241895,
   666307205, 773529912, 1294757372, 1396182291, 1695183700, 1986661051, 2177026350, 2456956037,
   2730485921, 2820302411, 3259730800, 3345764771, 3516065817, 3600352804, 4094571909, 275423344,
   430227734, 506948616, 659060556, 883997877, 958139571, 1322822218, 1537002063, 1747873779,
   1955562222, 2024104815, 2227730452, 2361852424, 2428436474, 2756734187, 3204031479, 3329325298]

/-- SHA-256 working state (eight 32-bit words). -/
structure H8 where
  a : Nat
  b : Nat
  c : Nat
  d : Nat
  e : Nat
  f : Nat
  g : Nat
  h : Nat
deriving DecidableEq

/-- SHA-256 initial hash value. -/
def shaH0 : H8 :=
  ⟨1779033703, 3144134277, 1013904242, 2773480762, 1359893119, 2600822924, 528734635, 1541459225⟩

/-- SHA-256 padding: `0x80`, zeros, and the big-endian 64-bit bit length. -/
def shaPad (m : List Nat) : List Nat :=
  m ++ 128 :: List.replicate ((64 - (m.length + 9) % 64) % 64) 0 ++ be64 ((8 * m.length) % 18446744073709551616)

/-- Message-schedule extension: prepend 48 derived words (list kept newest-first). -/
def shaExtend : Nat → List Nat → List Nat
  | 0, ws => ws
  | n+1, ws =>
      let w2 := ws.getD 1 0
      let w7 := ws.getD 6 0
      let w15 := ws.getD 14 0
      let w16 := ws.getD 15 0
      let s0 := (rotr32 7 w15) ^^^ (rotr32 18 w15) ^^^ (w15 >>> 3)
      let s1 := (rotr32 17 w2) ^^^ (rotr32 19 w2) ^^^ (w2 >>> 10)
      shaExtend n (((w16 + s0 + w7 + s1) % 4294967296) :: ws)

/-- One SHA-256 round, consuming a `(schedule word, constant)` pair. -/
def shaStep (wk : Nat × Nat) (s : H8) : H8 :=
  let S1 := (rotr32 6 s.e) ^^^ (rotr32 11 s.e) ^^^ (rotr32 25 s.e)
  let ch := (s.e &&& s.f) ^^^ ((not32 s.e) &&& s.g)
  let t1 := (s.h + S1 + ch + wk.1 + wk.2) % 4294967296
  let S0 := (rotr32 2 s.a) ^^^ (rotr32 13 s.a) ^^^ (rotr32 22 s.a)
  let mj := (s.a &&& s.b) ^^^ (s.a &&& s.c) ^^^ (s.b &&& s.c)
  let t2 := (S0 + mj) % 4294967296
  ⟨add32 t1 t2, s.a, s.b, s.c, add32 s.d t1, s.e, s.f, s.g⟩

/-- SHA-256 compression of one 16-word block into the running state. -/
def shaCompress (s : H8) (block : List Nat) : H8 :=
  let w := (shaExtend 48 block.reverse).reverse
  let t := (w.zip shaK).foldl (fun st wk => shaStep wk st) s
  ⟨add32 s.a t.a, add32 s.b t.b, add32 s.c t.c, add32 s.d t.d,
   add32 s.e t.e, add32 s.f t.f, add32 s.g t.g, add32 s.h t.h⟩

/-- Serialize the eight state words big-endian. -/
def h8Bytes (s : H8) : List Nat :=
  wordBytesBE s.a ++ wordBytesBE s.b ++ wordBytesBE s.c ++ wordBytesBE s.d ++
  wordBytesBE s.e ++ wordBytesBE s.f ++ wordBytesBE s.g ++ wordBytesBE s.h

/-- SHA-256 of a byte message, as 32 bytes.  This is the model of
`crypto::calculate_sha256_hash` (which fills its output buffer with the
digest of `data`). -/
def sha256 (m : List Nat) : List Nat :=
  let padded := shaPad m
  let ws := bytesToWordsBE padded.length padded
  let blocks := wordsToBlocks ws.length ws
  h8Bytes (blocks.foldl shaCompress shaH0)

/-- FIPS 180-4 test vector: SHA-256 of `"abc"`. -/
theorem sha256_vector_abc :
    sha256 [97, 98, 99] =
      [186, 120, 22, 191, 143, 1, 207, 234, 65, 65, 64, 222, 93, 174, 34, 35,
       176, 3, 97, 163, 150, 23, 122, 156, 180, 16, 255, 97, 242, 0, 21, 173] := by
  decide

/-- SHA-256 of the empty message. -/
theorem sha256_vector_empty :
    sha256 [] =
      [227, 176, 196, 66, 152, 252, 28, 20, 154, 251, 244, 200, 153, 111, 185, 36,
       39, 174, 65, 228, 100, 155, 147, 76, 164, 149, 153, 27, 120, 82, 184, 85] := by
  decide

/-! ## RIPEMD-160 (the `ripemd` crate primitive, modelled from the spec) -/

/-- RIPEMD-160 working state (five 32-bit words). -/
structure R5 where
  a : Nat
  b : Nat
  c : Nat
  d : Nat
  e : Nat
deriving DecidableEq

/-- RIPEMD-160 initial hash value. -/
def ripH0 : R5 := ⟨1732584193, 4023233417, 2562383102, 271733878, 3285377520⟩

/-- RIPEMD-160 boolean function for round group `j / 16` (left line order). -/
def ripF (j x y z : Nat) : Nat :=
  if j < 16 then x ^^^ y ^^^ z
  else if j < 32 then (x &&& y) ||| ((not32 x) &&& z)
  else if j < 48 then (x ||| (not32 y)) ^^^ z
  else if j < 64 then (x &&& z) ||| (y &&& (not32 z))
  else x ^^^ (y ||| (not32 z))

/-- Left-line round constants by group. -/
def ripKL (j : Nat) : Nat :=
  if j < 16 then 0 else if j < 32 then 1518500249 else if j < 48 then 1859775393
  else if j < 64 then 2400959708 else 2840853838

/-- Right-line round constants by group. -/
def ripKR (j : Nat) : Nat :=
  if j < 16 then 1352829926 else if j < 32 then 1548603684 else if j < 48 then 1836072691
  else if j < 64 then 2053994217 else 0

/-- Left-line message word selection. -/
def ripRL : List Nat :=
  [0, 1, 2, 3, 4, 5, 6, 7, 8, 9, 10, 11, 12, 13, 14, 15,
   7, 4, 13, 1, 10, 6, 15, 3, 12, 0, 9, 5, 2, 14, 11, 8,
   3, 10, 14, 4, 9, 15, 8, 1, 2, 7, 0, 6, 13, 11, 5, 12,
   1, 9, 11, 10, 0, 8, 12, 4, 13, 3, 7, 15, 14, 5, 6, 2,
   4, 0, 5, 9, 7, 12, 2, 10, 14, 1, 3, 8, 11, 6, 15, 13]

/-- Right-line message word selection. -/
def ripRR : List Nat :=
  [5, 14, 7, 0, 9, 2, 11, 4, 13, 6, 15, 8, 1, 10, 3, 12,
   6, 11, 3, 7, 0, 13, 5, 10, 14, 15, 8, 12, 4, 9, 1, 2,
   15, 5, 1, 3, 7, 14, 6, 9, 11, 8, 12, 2, 10, 0, 4, 13,
   8, 6, 4, 1, 3, 11, 15, 0, 5, 12, 2, 13, 9, 7, 10, 14,
   12, 15, 10, 4, 1, 5, 8, 7, 6, 2, 13, 14, 0, 3, 9, 11]

/-- Left-line rotation amounts. -/
def ripSL : List Nat :=
  [11, 14, 15, 12, 5, 8, 7, 9, 11, 13, 14, 15, 6, 7, 9, 8,
   7, 6, 8, 13, 11, 9, 7, 15, 7, 12, 15, 9, 11, 7, 13, 12,
   11, 13, 6, 7, 14, 9, 13, 15, 14, 8, 13, 6, 5, 12, 7, 5,
   11, 12, 14, 15, 14, 15, 9, 8, 9, 14, 5, 6, 8, 6, 5, 12,
   9, 15, 5, 11, 6, 8, 13, 12, 5, 12, 13, 14, 11, 8, 5, 6]

/-- Right-line rotation amounts. -/
def ripSR : List Nat :=
  [8, 9, 9, 11, 13, 15, 15, 5, 7, 7, 8, 11, 14, 14, 12, 6,
   9, 13, 15, 7, 12, 8, 9, 11, 7, 7, 12, 7, 6, 15, 13, 11,
   9, 7, 15, 11, 8, 6, 6, 14, 12, 13, 5, 14, 13, 13, 7, 5,
   15, 5, 8, 11, 14, 14, 6, 14, 6, 9, 12, 9, 12, 5, 15, 8,
   8, 5, 12, 9, 12, 5, 14, 6, 8, 13, 6, 5, 15, 13, 11, 11]

/-- One RIPEMD-160 round of either line, given the round index `j`, the
selected message word, constant, rotation amount, and the boolean function
index for this line at `j`. -/
def ripStep (x k s fj : Nat) (st : R5) : R5 :=
  let t := add32 (rotl32 s ((st.a + ripF fj st.b st.c st.d + x + k) % 4294967296)) st.e
  ⟨st.e, t, st.b, rotl32 10 st.c, st.d⟩

/-- Run one RIPEMD-160 line (left when `left = true`) over a 16-word block. -/
def ripLine (left : Bool) (block : List Nat) (st : R5) : R5 :=
  (List.range 80).foldl
    (fun s j =>
      if left then
        ripStep (block.getD (ripRL.getD j 0) 0) (ripKL j) (ripSL.getD j 0) j s
      else
        ripStep (block.getD (ripRR.getD j 0) 0) (ripKR j) (ripSR.getD j 0) (79 - j) s)
    st

/-- RIPEMD-160 compression of one 16-word block. -/
def ripCompress (h : R5) (block : List Nat) : R5 :=
  let L := ripLine true block h
  let R := ripLine false block h
  ⟨add32 (add32 h.b L.c) R.d,
   add32 (add32 h.c L.d) R.e,
   add32 (add32 h.d L.e) R.a,
   add32 (add32 h.e L.a) R.b,
   add32 (add32 h.a L.b) R.c⟩

/-- RIPEMD-160 padding: `0x80`, zeros, and the little-endian 64-bit bit length. -/
def ripPad (m : List Nat) : List Nat :=
  m ++ 128 :: List.replicate ((64 - (m.length + 9) % 64) % 64) 0 ++ le64 ((8 * m.length) % 18446744073709551616)

/-- Serialize the five state words little-endian. -/
def r5Bytes (s : R5) : List Nat :=
  wordBytesLE s.a ++ wordBytesLE s.b ++ wordBytesLE s.c ++ wordBytesLE s.d ++ wordBytesLE s.e

/-- RIPEMD-160 of a byte message, as 20 bytes; the model of
`crypto::get_ripemd_hash`. -/
def ripemd160 (m : List Nat) : List Nat :=
  let padded := ripPad m
  let ws := bytesToWordsLE padded.length padded
  let blocks := wordsToBlocks ws.length ws
  r5Bytes (blocks.foldl ripCompress ripH0)

/-- Reference test vector: RIPEMD-160 of `"abc"`. -/
theorem ripemd160_vector_abc :
    ripemd160 [97, 98, 99] =
      [142, 178, 8, 247, 224, 93, 152, 122, 155, 4,
       74, 142, 152, 198, 176, 135, 241, 90, 11, 252] := by
  decide

/-- Reference test vector: RIPEMD-160 of the empty message. -/
theorem ripemd160_vector_empty :
    ripemd160 [] =
      [156, 17, 133, 165, 197, 233, 252, 84, 97, 40,
       8, 151, 126, 232, 245, 72, 178, 37, 141, 49] := by
  decide

/-! ## Digest shape lemmas -/

theorem wordBytesBE_length (w : Nat) : (wordBytesBE w).length = 4 := rfl

theorem wordBytesLE_length (w : Nat) : (wordBytesLE w).length = 4 := rfl

theorem wordBytesBE_lt (w : Nat) : ∀ b ∈ wordBytesBE w, b < 256 := by
  intro b hb
  simp only [wordBytesBE, List.mem_cons, List.not_mem_nil, or_false] at hb
  rcases hb with rfl | rfl | rfl | rfl <;> exact Nat.mod_lt _ (by norm_num)

theorem wordBytesLE_lt (w : Nat) : ∀ b ∈ wordBytesLE w, b < 256 := by
  intro b hb
  simp only [wordBytesLE, List.mem_cons, List.not_mem_nil, or_false] at hb
  rcases hb with rfl | rfl | rfl | rfl <;> exact Nat.mod_lt _ (by norm_num)

theorem h8Bytes_length (s : H8) : (h8Bytes s).length = 32 := by
  simp [h8Bytes, wordBytesBE]

theorem h8Bytes_lt (s : H8) : ∀ b ∈ h8Bytes s, b < 256 := by
  intro b hb
  simp only [h8Bytes, List.mem_append] at hb
  rcases hb with ((((((h | h) | h) | h) | h) | h) | h) | h <;> exact wordBytesBE_lt _ _ h

theorem r5Bytes_length (s : R5) : (r5Bytes s).length = 20 := by
  simp [r5Bytes, wordBytesLE]

theorem r5Bytes_lt (s : R5) : ∀ b ∈ r5Bytes s, b < 256 := by
  intro b hb
  simp only [r5Bytes, List.mem_append] at hb
  rcases hb with (((h | h) | h) | h) | h <;> exact wordBytesLE_lt _ _ h

theorem sha256_length (m : List Nat) : (sha256 m).length = 32 := h8Bytes_length _

theorem sha256_lt (m : List Nat) : ∀ b ∈ sha256 m, b < 256 := h8Bytes_lt _

theorem ripemd160_length (m : List Nat) : (ripemd160 m).length = 20 := r5Bytes_length _

theorem ripemd160_lt (m : List Nat) : ∀ b ∈ ripemd160 m, b < 256 := r5Bytes_lt _

/-! ## ASCII renderings (Rust `String` values as UTF-8 byte lists) -/

/-- The ASCII code of the lower-case hex digit for `d < 16`. -/
def hexDigit (d : Nat) : Nat := if d < 10 then 48 + d else 87 + d

/-- `hex::encode`: two lower-case hex characters per byte. -/
def hexEncode (l : List Nat) : List Nat :=
  l.foldr (fun b acc => hexDigit (b / 16 % 16) :: hexDigit (b % 16) :: acc) []

/-- Base-`b` digits of `n`, least significant first, computed with fuel
(`fuel = n` always suffices); executable counterpart of `Nat.digits`. -/
def natDigitsAux (b : Nat) : Nat → Nat → List Nat
  | 0, _ => []
  | fuel+1, n => if n = 0 then [] else n % b :: natDigitsAux b fuel (n / b)

/-- Base-`b` digits of `n`, least significant first. -/
def natDigits (b n : Nat) : List Nat := natDigitsAux b n n

/-- Decimal rendering of an unsigned integer (`to_string` on `u32`/`u128`/`usize`),
as ASCII bytes. -/
def decimalBytes (n : Nat) : List Nat :=
  if n = 0 then [48] else (natDigits 10 n).reverse.map (fun d => 48 + d)

/-- `crypto::leading_zeros_count`: count consecutive leading `'0'` characters
of a string (the proof-of-work difficulty metric). -/
def leadingZerosCount : List Nat → Nat
  | 48 :: rest => leadingZerosCount rest + 1
  | _ => 0

theorem natDigitsAux_eq (b : Nat) (hb : 2 ≤ b) :
    ∀ fuel n, n ≤ fuel → natDigitsAux b fuel n = Nat.digits b n := by
  intro fuel
  induction fuel with
  | zero =>
    intro n hn
    interval_cases n
    simp [natDigitsAux]
  | succ f ih =>
    intro n hn
    by_cases h0 : n = 0
    · subst h0; simp [natDigitsAux]
    · rw [natDigitsAux, if_neg h0, Nat.digits_def' (by omega : 1 < b) (by omega : 0 < n)]
      congr 1
      exact ih (n / b) (by
        have := Nat.div_lt_self (by omega : 0 < n) (by omega : 1 < b)
        omega)

theorem natDigits_eq (b n : Nat) (hb : 2 ≤ b) : natDigits b n = Nat.digits b n :=
  natDigitsAux_eq b hb n n le_rfl

/-! ## Base58 (the `base58` crate, modelled from the spec) -/

/-- The Base58 alphabet as ASCII codes (digits and letters, excluding
`0`, `O`, `I`, `l`). -/
def base58Alphabet : List Nat :=
  [49, 50, 51, 52, 53, 54, 55, 56, 57,
   65, 66, 67, 68, 69, 70, 71, 72,
   74, 75, 76, 77, 78,
   80, 81, 82, 83, 84, 85, 86, 87, 88, 89, 90,
   97, 98, 99, 100, 101, 102, 103, 104, 105, 106, 107,
   109, 110, 111, 112, 113, 114, 115, 116, 117, 118, 119, 120, 121, 122]

/-- Big-endian byte value of a byte string. -/
def bytesToNat (l : List Nat) : Nat := l.foldl (fun a b => a * 256 + b) 0

/-- `ToBase58 for [u8]`: leading zero bytes become `'1'` characters, the rest
is the big-endian base-58 rendering of the value. -/
def toBase58 (p : List Nat) : List Nat :=
  let z := (p.takeWhile (fun b => b = 0)).length
  List.replicate z 49 ++ (natDigits 58 (bytesToNat p)).reverse.map (fun d => base58Alphabet.getD d 0)

/-- `FromBase58 for str`: fails on any character outside the alphabet;
leading `'1'` characters become zero bytes, the rest is the big-endian
byte rendering of the base-58 value. -/
def fromBase58 (s : List Nat) : Option (List Nat) :=
  if s.all (fun c => base58Alphabet.contains c) then
    let z := (s.takeWhile (fun c => c = 49)).length
    let n := s.foldl (fun a c => a * 58 + base58Alphabet.indexOf c) 0
    some (List.replicate z 0 ++ (natDigits 256 n).reverse)
  else none

/-! ## Base58 round-trip -/

theorem foldl_base_eq (b : Nat) :
    ∀ (l : List Nat) (a : Nat),
      l.foldl (fun a d => a * b + d) a = a * b ^ l.length + Nat.ofDigits b l.reverse := by
  intro l
  induction l with
  | nil => intro a; simp [Nat.ofDigits_nil]
  | cons d t ih =>
    intro a
    rw [List.foldl_cons, ih (a * b + d), List.reverse_cons, Nat.ofDigits_append]
    simp only [Nat.ofDigits_singleton, List.length_reverse, List.length_cons]
    ring

theorem bytesToNat_eq (l : List Nat) : bytesToNat l = Nat.ofDigits 256 l.reverse := by
  rw [bytesToNat, foldl_base_eq]
  simp

theorem ofDigits_replicate_zero (b : Nat) : ∀ z, Nat.ofDigits b (List.replicate z 0) = 0 := by
  intro z
  induction z with
  | zero => rfl
  | succ z ih => rw [List.replicate_succ, Nat.ofDigits_cons, ih]; ring

theorem alphabet_getD_mem :
    ∀ d, d < 58 → base58Alphabet.contains (base58Alphabet.getD d 0) = true := by decide

theorem alphabet_indexOf_getD :
    ∀ d, d < 58 → base58Alphabet.indexOf (base58Alphabet.getD d 0) = d := by decide

theorem alphabet_getD_ne_one :
    ∀ d, d < 58 → d ≠ 0 → base58Alphabet.getD d 0 ≠ 49 := by decide

theorem takeWhile_eq_val_replicate (v : Nat) (l : List Nat) :
    l.takeWhile (fun b => b = v) = List.replicate (l.takeWhile (fun b => b = v)).length v := by
  rw [List.eq_replicate_iff]
  refine ⟨rfl, ?_⟩
  intro b hb
  have := List.mem_takeWhile_imp hb
  simpa using this

theorem dropWhile_cons_ne (v : Nat) :
    ∀ (l : List Nat) (x : Nat) (t : List Nat),
      l.dropWhile (fun b => b = v) = x :: t → x ≠ v := by
  intro l
  induction l with
  | nil => intro x t h; simp at h
  | cons y l' ih =>
    intro x t h
    by_cases hy : y = v
    · rw [List.dropWhile_cons_of_pos (by simpa using hy)] at h
      exact ih x t h
    · rw [List.dropWhile_cons_of_neg (by simpa using hy)] at h
      injection h with h1 _
      subst h1
      exact hy

theorem takeWhile_replicate_append (v z : Nat) (rest : List Nat)
    (hrest : ∀ x, rest.head? = some x → x ≠ v) :
    (List.replicate z v ++ rest).takeWhile (fun b => b = v) = List.replicate z v := by
  induction z with
  | zero =>
    simp only [List.replicate, List.nil_append]
    cases rest with
    | nil => rfl
    | cons r t =>
      rw [List.takeWhile_cons_of_neg]
      simpa using hrest r rfl
  | succ z ih =>
    rw [List.replicate_succ, List.cons_append, List.takeWhile_cons_of_pos (by simp),
      ih, ← List.replicate_succ]

theorem decode_fold_replicate (z : Nat) (rest : List Nat) :
    (List.replicate z 49 ++ rest).foldl (fun a c => a * 58 + base58Alphabet.indexOf c) 0 =
      rest.foldl (fun a c => a * 58 + base58Alphabet.indexOf c) 0 := by
  induction z with
  | zero => rfl
  | succ z ih => rw [List.replicate_succ, List.cons_append, List.foldl_cons]; simpa using ih

theorem foldl_indexOf_map :
    ∀ (l : List Nat), (∀ d ∈ l, d < 58) → ∀ (a : Nat),
      (l.map (fun d => base58Alphabet.getD d 0)).foldl
          (fun a c => a * 58 + base58Alphabet.indexOf c) a =
        l.foldl (fun a d => a * 58 + d) a := by
  intro l
  induction l with
  | nil => intro _ a; rfl
  | cons d t ih =>
    intro hl a
    rw [List.map_cons, List.foldl_cons, List.foldl_cons,
      alphabet_indexOf_getD d (hl d (by simp))]
    exact ih (fun x hx => hl x (by simp [hx])) _

/-- Decoding inverts encoding on any genuine byte string; this is the key
fact behind address decoding being a left inverse of address derivation. -/
theorem fromBase58_toBase58 (p : List Nat) (hp : ∀ b ∈ p, b < 256) :
    fromBase58 (toBase58 p) = some p := by
  have h58 : (2 : Nat) ≤ 58 := by norm_num
  have h256 : (2 : Nat) ≤ 256 := by norm_num
  set z := (p.takeWhile (fun b => b = 0)).length with hz
  set q := p.dropWhile (fun b => b = 0) with hq
  have hsplit : List.replicate z 0 ++ q = p := by
    conv_rhs => rw [← List.takeWhile_append_dropWhile (p := fun b : Nat => b = 0) (l := p)]
    rw [hz, hq, ← takeWhile_eq_val_replicate]
  set n := bytesToNat p with hn
  have hnq : n = Nat.ofDigits 256 q.reverse := by
    rw [hn, bytesToNat_eq, ← hsplit, List.reverse_append, Nat.ofDigits_append,
      List.reverse_replicate, ofDigits_replicate_zero]
    ring
  have hqlt : ∀ b ∈ q.reverse, b < 256 := by
    intro b hb
    refine hp b ?_
    rw [← hsplit]
    exact List.mem_append_right _ (List.mem_reverse.mp hb)
  have hds : natDigits 58 n = Nat.digits 58 n := natDigits_eq _ _ h58
  have hdslt : ∀ d ∈ (Nat.digits 58 n).reverse, d < 58 := by
    intro d hd
    exact Nat.digits_lt_base (by norm_num) (List.mem_reverse.mp hd)
  -- the encoded string
  have henc : toBase58 p =
      List.replicate z 49 ++
        (Nat.digits 58 n).reverse.map (fun d => base58Alphabet.getD d 0) := by
    rw [toBase58, hds]
  -- q's digits reconstruct q
  have hq256 : Nat.digits 256 n = q.reverse := by
    rw [hnq]
    cases hqe : q with
    | nil => simp [hqe]
    | cons qh qt =>
      rw [hqe] at hqlt
      refine Nat.digits_ofDigits 256 (by norm_num) (qh :: qt).reverse hqlt ?_
      intro hne
      have hqh : qh ≠ 0 := dropWhile_cons_ne 0 p qh qt (by rw [← hq]; exact hqe)
      have h1 : (qh :: qt).reverse.getLast? = some qh := by
        rw [List.getLast?_reverse]
        rfl
      have h2 : (qh :: qt).reverse.getLast hne = qh := by
        have h3 := List.getLast?_eq_getLast (qh :: qt).reverse hne
        rw [h1] at h3
        exact (Option.some.injEq _ _).mp h3.symm
      rw [h2]
      exact hqh
  -- every character of the encoding is in the alphabet
  have hvalid : (toBase58 p).all (fun c => base58Alphabet.contains c) = true := by
    rw [List.all_eq_true]
    intro c hc
    rw [henc, List.mem_append] at hc
    rcases hc with hc | hc
    · have : c = 49 := List.eq_of_mem_replicate hc
      subst this
      decide
    · obtain ⟨d, hd, rfl⟩ := List.mem_map.mp hc
      exact alphabet_getD_mem d (hdslt d hd)
  -- leading-one count of the encoding
  have hlead : ((toBase58 p).takeWhile (fun c => c = 49)).length = z := by
    rw [henc, takeWhile_replicate_append, List.length_replicate]
    intro x hx
    rcases hrev : (Nat.digits 58 n).reverse with _ | ⟨dsl, dst⟩
    · rw [hrev] at hx; simp at hx
    · rw [hrev, List.map_cons, List.head?_cons] at hx
      have hxd : x = base58Alphabet.getD dsl 0 := (Option.some.injEq _ _).mp hx.symm
      have hdsns : Nat.digits 58 n = dst.reverse ++ [dsl] := by
        rw [← List.reverse_reverse (Nat.digits 58 n), hrev]
        simp
      have hn0 : n ≠ 0 := by
        intro h0
        rw [h0] at hdsns
        simp at hdsns
      have hlast? : (Nat.digits 58 n).getLast? = some dsl := by
        rw [← List.head?_reverse, hrev]
        rfl
      have hdsl0 : dsl ≠ 0 := by
        have hgl := List.getLast?_eq_getLast (Nat.digits 58 n) (Nat.digits_ne_nil_iff_ne_zero.mpr hn0)
        rw [hlast?] at hgl
        have hd : dsl = (Nat.digits 58 n).getLast (Nat.digits_ne_nil_iff_ne_zero.mpr hn0) :=
          (Option.some.injEq _ _).mp hgl
        rw [hd]
        exact Nat.getLast_digit_ne_zero 58 hn0
      have hdsl58 : dsl < 58 := hdslt dsl (by simp [hrev])
      rw [hxd]
      exact alphabet_getD_ne_one dsl hdsl58 hdsl0
  -- the decoded value
  have hfold : (toBase58 p).foldl (fun a c => a * 58 + base58Alphabet.indexOf c) 0 = n := by
    rw [henc, decode_fold_replicate, foldl_indexOf_map _ hdslt, foldl_base_eq]
    simp [Nat.ofDigits_digits]
  rw [fromBase58, if_pos hvalid, hlead, hfold]
  show some (List.replicate z 0 ++ (natDigits 256 n).reverse) = some p
  rw [natDigits_eq _ _ h256, hq256]
  simp [hsplit]

/-! ## Addresses (`crypto.rs`) -/

/-- `crypto::CryptoError`. -/
inductive CryptoError
  | base58DecodeError
  | invalidPubKey
  | invalidSignature
deriving DecidableEq

instance {ε α : Type} [DecidableEq ε] [DecidableEq α] : DecidableEq (Except ε α) := fun x y =>
  match x, y with
  | .ok a, .ok b => decidable_of_iff (a = b) (by simp)
  | .error a, .error b => decidable_of_iff (a = b) (by simp)
  | .ok _, .error _ => isFalse (fun hc => Except.noConfusion hc)
  | .error _, .ok _ => isFalse (fun hc => Except.noConfusion hc)

/-- `crypto::add_prefix_to_public_key_hash`: prepend a version byte. -/
def addPrefixToPublicKeyHash (pre : Nat) (hash : List Nat) : List Nat := pre :: hash

/-- `crypto::get_public_key_hash`, factored through the public-key bytes
(elliptic-curve key derivation lives in the external `k256` crate and
enters the model only through these bytes): RIPEMD160(SHA256(pk)). -/
def getPublicKeyHash (publicKey : List Nat) : List Nat := ripemd160 (sha256 publicKey)

/-- `crypto::get_check_sum`: the first four bytes of SHA256(SHA256(hash)). -/
def getCheckSum (hash : List Nat) : List Nat := (sha256 (sha256 hash)).take 4

/-- `crypto::get_address`, factored through the public-key bytes: Base58 of
`version 0 ∥ pubkey hash ∥ 4-byte checksum`. -/
def getAddress (publicKey : List Nat) : List Nat :=
  let result := addPrefixToPublicKeyHash 0 (getPublicKeyHash publicKey)
  toBase58 (result ++ getCheckSum result)

/-- `crypto::address_to_public_key_hash`: Base58-decode, require a 25-byte
payload, drop the version byte and the trailing four bytes.  Note that the
code never verifies the checksum. -/
def addressToPublicKeyHash (address : List Nat) : Except CryptoError (List Nat) :=
  match fromBase58 address with
  | some pkh =>
      if pkh.length = 25 then .ok ((pkh.drop 1).take 20) else .error .base58DecodeError
  | none => .error .base58DecodeError

/-- The repository's own unit-test vector for address decoding
(`crypto::tests::test_address_to_pub_key_hash_conversion`). -/
theorem addressToPublicKeyHash_vector :
    addressToPublicKeyHash
        [49, 50, 56, 71, 97, 85, 85, 111, 75, 75, 110, 69, 103, 105, 111, 68, 115, 109, 53,
         80, 97, 57, 70, 120, 109, 88, 116, 122, 81, 77, 107, 51, 70, 57] =
      .ok [12, 88, 10, 104, 61, 37, 186, 170, 149, 196, 18, 201, 159, 79, 233, 25, 234, 203, 216, 138] := by
  decide

/-- Address decoding is a left inverse of address derivation (shared
helper: the payload round-trips through Base58 and the strip operations
recover the 20 pubkey-hash bytes). -/
theorem addressToPublicKeyHash_getAddress (publicKey : List Nat) :
    addressToPublicKeyHash (getAddress publicKey) = .ok (getPublicKeyHash publicKey) := by
  set h := getPublicKeyHash publicKey with hh
  set cs := getCheckSum (0 :: h) with hcs
  have hlen : h.length = 20 := ripemd160_length _
  have hcslen : cs.length = 4 := by
    rw [hcs, getCheckSum, List.length_take, sha256_length]
    omega
  have hbound : ∀ b ∈ (0 :: h) ++ cs, b < 256 := by
    intro b hb
    rcases List.mem_append.mp hb with hb | hb
    · rcases List.mem_cons.mp hb with rfl | hb
      · norm_num
      · exact ripemd160_lt _ b hb
    · exact sha256_lt _ b (List.take_subset _ _ hb)
  have hdec : getAddress publicKey = toBase58 ((0 :: h) ++ cs) := rfl
  rw [addressToPublicKeyHash, hdec, fromBase58_toBase58 _ hbound]
  have hplen : ((0 :: h) ++ cs).length = 25 := by
    simp [hlen, hcslen]
  show (if ((0 :: h) ++ cs).length = 25
        then Except.ok ((((0 : Nat) :: h ++ cs).drop 1).take 20)
        else Except.error CryptoError.base58DecodeError) = Except.ok h
  rw [if_pos hplen]
  have hstrip : (((0 : Nat) :: h ++ cs).drop 1).take 20 = h := by
    show List.take 20 (h ++ cs) = h
    rw [← hlen, List.take_left]
  rw [hstrip]

/-! ## IEEE-754 binary32 (`f32` amounts as 32-bit patterns)

Rust `f32` values are modelled by their bit patterns; arithmetic decodes to
exact rationals, computes exactly, and rounds to nearest-even, which is the
IEEE-754 behaviour of `+`, `-` and `>` on finite values. -/

def f32Sign (x : Nat) : Nat := x / 2147483648 % 2

def f32Exp (x : Nat) : Nat := x / 8388608 % 256

def f32Frac (x : Nat) : Nat := x % 8388608

def f32IsNan (x : Nat) : Bool := f32Exp x = 255 && f32Frac x ≠ 0

def f32IsInf (x : Nat) : Bool := f32Exp x = 255 && f32Frac x = 0

/-- Mantissa and exponent of a finite f32 pattern: the value is
`±mantissa · 2^(exponent − 150)` with `exponent ≥ 1` (subnormals use
exponent 1 without the implicit bit). -/
def f32Decode (x : Nat) : Nat × Nat :=
  if f32Exp x = 0 then (f32Frac x, 1) else (8388608 + f32Frac x, f32Exp x)

/-- Base-2 logarithm with fuel (structural recursion, kernel-reducible). -/
def natLog2F : Nat → Nat → Nat
  | 0, _ => 0
  | f+1, n => if n ≤ 1 then 0 else natLog2F f (n / 2) + 1

def natLog2 (n : Nat) : Nat := natLog2F n n

/-- Shift `a` right by `s` bits, rounding to nearest with ties to even. -/
def roundShiftEven (a s : Nat) : Nat :=
  if s = 0 then a
  else
    let q := a / 2 ^ s
    let r := a % 2 ^ s
    let half := 2 ^ (s - 1)
    if r < half then q else if half < r then q + 1 else if q % 2 = 0 then q else q + 1

/-- Canonical quiet-NaN bit pattern. -/
def f32NanBits : Nat := 0x7FC00000

/-- Encode `±a · 2^(emin − 150)` (with `a > 0`, `emin ≥ 1`) as an f32 bit
pattern, rounding to nearest-even and overflowing to infinity.  Every f32
sum/difference has this shape, so the encoding is exact IEEE-754. -/
def f32Encode (sign a emin : Nat) : Nat :=
  let L := natLog2 a
  if L + emin < 24 then
    sign * 2147483648 + a * 2 ^ (emin - 1)
  else
    let biased0 := L + emin - 23
    let n := if L ≤ 23 then a * 2 ^ (23 - L) else roundShiftEven a (L - 23)
    let biased := if n = 16777216 then biased0 + 1 else biased0
    let n2 := if n = 16777216 then 8388608 else n
    if 255 ≤ biased then sign * 2147483648 + 2139095040
    else sign * 2147483648 + biased * 8388608 + (n2 - 8388608)

/-- IEEE-754 addition on f32 bit patterns (NaN payloads canonicalised). -/
def f32Add (x y : Nat) : Nat :=
  if f32IsNan x || f32IsNan y then f32NanBits
  else if f32IsInf x && f32IsInf y then (if f32Sign x = f32Sign y then x else f32NanBits)
  else if f32IsInf x then x
  else if f32IsInf y then y
  else
    let m1 := (f32Decode x).1
    let e1 := (f32Decode x).2
    let m2 := (f32Decode y).1
    let e2 := (f32Decode y).2
    let emin := min e1 e2
    let v1 : Int := (if f32Sign x = 1 then -(m1 : Int) else (m1 : Int)) * 2 ^ (e1 - emin)
    let v2 : Int := (if f32Sign y = 1 then -(m2 : Int) else (m2 : Int)) * 2 ^ (e2 - emin)
    let t := v1 + v2
    if t = 0 then (if f32Sign x = 1 && f32Sign y = 1 then 2147483648 else 0)
    else f32Encode (if t < 0 then 1 else 0) t.natAbs emin

/-- Flip the sign bit. -/
def f32Neg (x : Nat) : Nat := if x < 2147483648 then x + 2147483648 else x - 2147483648

/-- IEEE-754 subtraction: addition of the negation. -/
def f32Sub (x y : Nat) : Nat := f32Add x (f32Neg y)

/-- IEEE-754 `>` on f32 bit patterns (`false` whenever an operand is NaN). -/
def f32Gt (x y : Nat) : Bool :=
  if f32IsNan x || f32IsNan y then false
  else if f32IsInf x then (if f32Sign x = 0 then !(f32IsInf y && f32Sign y = 0) else false)
  else if f32IsInf y then f32Sign y = 1
  else
    let m1 := (f32Decode x).1
    let e1 := (f32Decode x).2
    let m2 := (f32Decode y).1
    let e2 := (f32Decode y).2
    let emin := min e1 e2
    let v1 : Int := (if f32Sign x = 1 then -(m1 : Int) else (m1 : Int)) * 2 ^ (e1 - emin)
    let v2 : Int := (if f32Sign y = 1 then -(m2 : Int) else (m2 : Int)) * 2 ^ (e2 - emin)
    v2 < v1

/-- Strip trailing `'0'` characters. -/
def stripTrailingZeros (l : List Nat) : List Nat :=
  (l.reverse.dropWhile (fun c => c = 48)).reverse

/-- `Display` of an `f32` as ASCII bytes: the exact decimal expansion of the
value (finite f32 values are dyadic, so it is finite).  Rust prints the
shortest decimal that round-trips; the two renderings coincide on every
value whose shortest form is exact (in particular all integral and dyadic
decimal amounts used in this code base); this function is total and
deterministic, which is all the transaction-hash theorems rely on. -/
def f32DisplayBytes (x : Nat) : List Nat :=
  if f32IsNan x then [78, 97, 78]
  else if f32IsInf x then (if f32Sign x = 1 then [45, 105, 110, 102] else [105, 110, 102])
  else
    let m := (f32Decode x).1
    let e := (f32Decode x).2
    let k := 150 - e
    let ip := if 150 ≤ e then m * 2 ^ (e - 150) else m / 2 ^ k
    let fracNum := if 150 ≤ e then 0 else m % 2 ^ k
    let fracPart : List Nat :=
      if fracNum = 0 then []
      else
        let ds := decimalBytes (fracNum * 5 ^ k)
        46 :: stripTrailingZeros (List.replicate (k - ds.length) 48 ++ ds)
    (if f32Sign x = 1 then [45] else []) ++ decimalBytes ip ++ fracPart

/-- `5.0f32 + 5.0f32 = 10.0f32`. -/
theorem f32_check_add : f32Add 0x40A00000 0x40A00000 = 0x41200000 := by decide

/-- `10.0f32 - 7.0f32 = 3.0f32`. -/
theorem f32_check_sub : f32Sub 0x41200000 0x40E00000 = 0x40400000 := by decide

/-- `0.1f32 + 0.2f32 = 0.3f32` (rounding happens exactly as in IEEE). -/
theorem f32_check_round : f32Add 0x3DCCCCCD 0x3E4CCCCD = 0x3E99999A := by decide

/-- `1.0f32 + 2^-24 = 1.0f32` (tie rounds to even). -/
theorem f32_check_tie : f32Add 0x3F800000 0x33800000 = 0x3F800000 := by decide

/-- `10.0f32 > 7.0f32`, and not conversely. -/
theorem f32_check_gt : f32Gt 0x41200000 0x40E00000 = true ∧ f32Gt 0x40E00000 0x41200000 = false := by
  decide

/-- `5.0f32` prints as `"5"`, `0.5f32` prints as `"0.5"`. -/
theorem f32_check_display :
    f32DisplayBytes 0x40A00000 = [53] ∧ f32DisplayBytes 0x3F000000 = [48, 46, 53] := by
  decide

/-! ## Transactions (`transaction.rs`) -/

/-- `transaction::TxIn` (field order as in the source). -/
structure TxIn where
  n : Nat                 -- usize
  prev_utxo : List Nat    -- [u8; 32]
  public_key : List Nat   -- String, ASCII bytes
deriving DecidableEq

/-- `TxIn::new(n, public_key, prev_utxo)` (argument order as in the source). -/
def TxIn.new (n : Nat) (public_key : List Nat) (prev_utxo : List Nat) : TxIn :=
  ⟨n, prev_utxo, public_key⟩

/-- `transaction::TxOut`. -/
structure TxOut where
  amount : Nat            -- f32 bit pattern
  destination : List Nat  -- [u8; 20]
deriving DecidableEq

/-- `TxOut::new(amount, destination)`. -/
def TxOut.new (amount : Nat) (destination : List Nat) : TxOut := ⟨amount, destination⟩

/-- `transaction::UTXO`. -/
structure UTXO where
  reference : List Nat    -- [u8; 32], a transaction hash
  n : Nat
  amount : Nat            -- f32 bit pattern
deriving DecidableEq

/-- `UTXO::new(reference, n, amount)`. -/
def UTXO.new (reference : List Nat) (n : Nat) (amount : Nat) : UTXO := ⟨reference, n, amount⟩

/-- `transaction::Transaction` (field order as in the source). -/
structure Transaction where
  hash : List Nat         -- [u8; 32]
  tx_in_sz : Nat          -- usize, set from `inputs.len()` at construction
  tx_out_sz : Nat         -- usize, set from `outputs.len()` at construction
  signature : List Nat    -- String, ASCII bytes (hex of the DER signature)
  inputs : List TxIn
  outputs : List TxOut
deriving DecidableEq

/-- `Transaction::new`: zero hash, sizes from the lists, empty signature. -/
def Transaction.new (inputs : List TxIn) (outputs : List TxOut) : Transaction :=
  ⟨List.replicate 32 0, inputs.length, outputs.length, [], inputs, outputs⟩

/-- `Transaction::add_tx_input` — note that it does not update `tx_in_sz`. -/
def Transaction.addTxInput (t : Transaction) (txIn : TxIn) : Transaction :=
  { t with inputs := t.inputs ++ [txIn] }

/-- `Transaction::add_tx_output` — note that it does not update `tx_out_sz`. -/
def Transaction.addTxOutput (t : Transaction) (txOut : TxOut) : Transaction :=
  { t with outputs := t.outputs ++ [txOut] }

/-- `Transaction::set_signature`. -/
def Transaction.setSignature (t : Transaction) (signature : List Nat) : Transaction :=
  { t with signature := signature }

/-- `Transaction::get_concatenated_inputs`: per input, the hex of the SHA-256
of `n.to_string() + hex(prev_utxo) + public_key`, concatenated in order. -/
def Transaction.getConcatenatedInputs (t : Transaction) : List Nat :=
  t.inputs.foldl
    (fun data input =>
      data ++ hexEncode (sha256 (decimalBytes input.n ++ hexEncode input.prev_utxo ++ input.public_key)))
    []

/-- `Transaction::get_concatenated_outputs`: per output, the hex of the
SHA-256 of `amount.to_string() + hex(destination)`, concatenated in order. -/
def Transaction.getConcatenatedOutputs (t : Transaction) : List Nat :=
  t.outputs.foldl
    (fun data output =>
      data ++ hexEncode (sha256 (f32DisplayBytes output.amount ++ hexEncode output.destination)))
    []

/-- `Transaction::calculate_inputs_hash`. -/
def Transaction.calculateInputsHash (t : Transaction) : List Nat :=
  sha256 t.getConcatenatedInputs

/-- `Transaction::calculate_outputs_hash`. -/
def Transaction.calculateOutputsHash (t : Transaction) : List Nat :=
  sha256 t.getConcatenatedOutputs

/-- `Transaction::get_transaction_data`: signature (when requested), the two
stored size fields rendered in decimal, then the hex of the inputs hash and
of the outputs hash. -/
def Transaction.getTransactionData (t : Transaction) (addSignature : Bool) : List Nat :=
  (if addSignature then t.signature else []) ++
  decimalBytes t.tx_in_sz ++ decimalBytes t.tx_out_sz ++
  hexEncode t.calculateInputsHash ++ hexEncode t.calculateOutputsHash

/-- `Transaction::hash(&mut self)`: set the `hash` field to the SHA-256 of
`get_transaction_data(true)`. -/
def Transaction.hashTx (t : Transaction) : Transaction :=
  { t with hash := sha256 (t.getTransactionData true) }

/-! ## Blocks and proof-of-work (`block.rs`) -/

/-- `block::Block` (field order as in the source). -/
structure Block where
  index : Nat             -- u32
  hash : List Nat         -- [u8; 32]
  prev_hash : List Nat    -- [u8; 32]
  timestamp : Nat         -- u128, milliseconds when mining starts
  merkle_root : List Nat  -- [u8; 32]
  transactions : List Transaction
  nonce : Nat             -- u32
deriving DecidableEq

/-- `Block::new`: all fields zeroed. -/
def Block.new : Block :=
  ⟨0, List.replicate 32 0, List.replicate 32 0, 0, List.replicate 32 0, [], 0⟩

/-- `Block::concatenate`: decimal index ∥ hex prev_hash ∥ decimal timestamp ∥
hex merkle_root ∥ decimal nonce. -/
def Block.concatenate (b : Block) : List Nat :=
  decimalBytes b.index ++ hexEncode b.prev_hash ++ decimalBytes b.timestamp ++
  hexEncode b.merkle_root ++ decimalBytes b.nonce

/-- `Block::calculate_hash`: set `hash` to the SHA-256 of the concatenation. -/
def Block.calculateHash (b : Block) : Block :=
  { b with hash := sha256 b.concatenate }

/-- `Block::add_transaction`. -/
def Block.addTransaction (b : Block) (tx : Transaction) : Block :=
  { b with transactions := b.transactions ++ [tx] }

/-- `Block::set_index`. -/
def Block.setIndex (b : Block) (index : Nat) : Block := { b with index := index }

/-- `Block::set_prev_hash_from_block`. -/
def Block.setPrevHashFromBlock (b : Block) (prev : Option Block) : Block × Bool :=
  match prev with
  | some p => ({ b with prev_hash := p.hash }, true)
  | none => (b, false)

/-- The `while` loop of `Block::mine_until_done`, with fuel: `none` means the
unbounded search is still running after `fuel` iterations.  The block passed
in already has its hash computed; each iteration wraps the `u32` nonce and
rehashes. -/
def Block.mineUntilDoneAux : Nat → Nat → Block → Option Block
  | 0, _, _ => none
  | fuel+1, difficulty, b =>
      if leadingZerosCount (hexEncode b.hash) < difficulty then
        Block.mineUntilDoneAux fuel difficulty
          (Block.calculateHash { b with nonce := (b.nonce + 1) % 4294967296 })
      else some b

/-- `Block::mine_until_done`: hash once, then search. -/
def Block.mineUntilDone (fuel : Nat) (b : Block) (difficulty : Nat) : Option Block :=
  Block.mineUntilDoneAux fuel difficulty b.calculateHash

/-- `Block::mine`: capture the timestamp (`now = none` models a clock
failure), append the reward transaction (no inputs, one output paying
`pubKeyHash`), then run the proof-of-work search. -/
def Block.mine (fuel : Nat) (now : Option Nat) (b : Block) (difficulty reward : Nat)
    (pubKeyHash : List Nat) : Option (Except String Block) :=
  match now with
  | none => some (.error "Error while mining block: could not get current time")
  | some t =>
      let b1 := { b with timestamp := t }
      let b2 := b1.addTransaction (Transaction.new [] [TxOut.new reward pubKeyHash])
      match Block.mineUntilDone fuel b2 difficulty with
      | some b3 => some (.ok b3)
      | none => none

/-! ## Persisted encoding (`bincode::serialize`/`deserialize`, fixed-width
little-endian integers, `u64` length prefixes, arrays written verbatim) -/

/-- `k`-byte little-endian rendering of `n`. -/
def leBytes : Nat → Nat → List Nat
  | 0, _ => []
  | k+1, n => n % 256 :: leBytes k (n / 256)

/-- Value of a little-endian byte list. -/
def leVal (l : List Nat) : Nat := l.foldr (fun b acc => b + 256 * acc) 0

/-- Serialize a `Vec`: `u64` length then the elements. -/
def serializeList {α : Type} (f : α → List Nat) (l : List α) : List Nat :=
  leBytes 8 l.length ++ l.foldr (fun x acc => f x ++ acc) []

def serializeTxIn (i : TxIn) : List Nat :=
  leBytes 8 i.n ++ i.prev_utxo ++ leBytes 8 i.public_key.length ++ i.public_key

def serializeTxOut (o : TxOut) : List Nat :=
  leBytes 4 o.amount ++ o.destination

def serializeTransaction (t : Transaction) : List Nat :=
  t.hash ++ leBytes 8 t.tx_in_sz ++ leBytes 8 t.tx_out_sz ++
  leBytes 8 t.signature.length ++ t.signature ++
  serializeList serializeTxIn t.inputs ++ serializeList serializeTxOut t.outputs

def serializeBlock (b : Block) : List Nat :=
  leBytes 4 b.index ++ b.hash ++ b.prev_hash ++ leBytes 16 b.timestamp ++ b.merkle_root ++
  serializeList serializeTransaction b.transactions ++ leBytes 4 b.nonce

/-- Read `k` raw bytes. -/
def readBytes (k : Nat) (l : List Nat) : Option (List Nat × List Nat) :=
  if k ≤ l.length then some (l.take k, l.drop k) else none

/-- Read a `k`-byte little-endian integer. -/
def readLE (k : Nat) (l : List Nat) : Option (Nat × List Nat) :=
  (readBytes k l).map (fun p => (leVal p.1, p.2))

/-- Read `count` consecutive values with the element reader `g`. -/
def readList {α : Type} (g : List Nat → Option (α × List Nat)) :
    Nat → List Nat → Option (List α × List Nat)
  | 0, l => some ([], l)
  | c+1, l => do
      let (x, l1) ← g l
      let (xs, l2) ← readList g c l1
      some (x :: xs, l2)

def readTxIn (l : List Nat) : Option (TxIn × List Nat) := do
  let (n, l) ← readLE 8 l
  let (pu, l) ← readBytes 32 l
  let (klen, l) ← readLE 8 l
  let (pk, l) ← readBytes klen l
  some (⟨n, pu, pk⟩, l)

def readTxOut (l : List Nat) : Option (TxOut × List Nat) := do
  let (a, l) ← readLE 4 l
  let (d, l) ← readBytes 20 l
  some (⟨a, d⟩, l)

def readTransaction (l : List Nat) : Option (Transaction × List Nat) := do
  let (h, l) ← readBytes 32 l
  let (isz, l) ← readLE 8 l
  let (osz, l) ← readLE 8 l
  let (slen, l) ← readLE 8 l
  let (sig, l) ← readBytes slen l
  let (icount, l) ← readLE 8 l
  let (ins, l) ← readList readTxIn icount l
  let (ocount, l) ← readLE 8 l
  let (outs, l) ← readList readTxOut ocount l
  some (⟨h, isz, osz, sig, ins, outs⟩, l)

def readBlock (l : List Nat) : Option (Block × List Nat) := do
  let (idx, l) ← readLE 4 l
  let (h, l) ← readBytes 32 l
  let (ph, l) ← readBytes 32 l
  let (ts, l) ← readLE 16 l
  let (mr, l) ← readBytes 32 l
  let (tcount, l) ← readLE 8 l
  let (txs, l) ← readList readTransaction tcount l
  let (nonce, l) ← readLE 4 l
  some (⟨idx, h, ph, ts, mr, txs, nonce⟩, l)

/-- `bincode::deserialize::<Block>` (trailing bytes are not rejected in
bincode 1.x). -/
def deserializeBlock (l : List Nat) : Option Block := (readBlock l).map (·.1)

/-! ## Ledger store (`rocks.rs` / `database.rs`) -/

/-- `rocks::DatabaseError`. -/
inductive DatabaseError
  | rocksDb
  | serializeFailure
deriving DecidableEq

/-- The two column families as association lists (`put` prepends, `get`
takes the first match, which models RocksDB overwrite semantics). -/
structure DB where
  blockCf : List (List Nat × List Nat)
  blockHashCf : List (List Nat × List Nat)
deriving DecidableEq

def emptyDB : DB := ⟨[], []⟩

def cfPut (cf : List (List Nat × List Nat)) (k v : List Nat) : List (List Nat × List Nat) :=
  (k, v) :: cf

def cfGet (cf : List (List Nat × List Nat)) (k : List Nat) : Option (List Nat) :=
  cf.lookup k

/-- `LedgerColumn::<columns::Block>::get`: fetch and bincode-decode. -/
def getBlockCf (db : DB) (k : List Nat) : Except DatabaseError (Option Block) :=
  match cfGet db.blockCf k with
  | some bytes =>
      match deserializeBlock bytes with
      | some b => .ok (some b)
      | none => .error .serializeFailure
  | none => .ok none

/-- `LedgerColumn::<columns::BlockHash>::get`: fetch and bincode-decode a
`[u8; 32]` (32 raw bytes). -/
def getBlockHashCf (db : DB) (k : List Nat) : Except DatabaseError (Option (List Nat)) :=
  match cfGet db.blockHashCf k with
  | some bytes =>
      if 32 ≤ bytes.length then .ok (some (bytes.take 32)) else .error .serializeFailure
  | none => .ok none

/-- `BlockHashKeys::LastBlock.to_bytes()` = `b"last_block"`. -/
def lastBlockKey : List Nat := [108, 97, 115, 116, 95, 98, 108, 111, 99, 107]

/-- `BlockHashKeys::Genesis.to_bytes()` = `b"genesis"`. -/
def genesisKey : List Nat := [103, 101, 110, 101, 115, 105, 115]

/-- `Database::get_block`. -/
def Database.getBlock (db : DB) (hash : List Nat) : Except DatabaseError (Option Block) :=
  getBlockCf db hash

/-- `Database::get_last_block`: resolve the `last_block` pointer, then fetch
the block by hash; `none` when either lookup misses. -/
def Database.getLastBlock (db : DB) : Except DatabaseError (Option Block) :=
  match getBlockHashCf db lastBlockKey with
  | .error e => .error e
  | .ok none => .ok none
  | .ok (some h) =>
      match getBlockCf db h with
      | .error e => .error e
      | .ok (some b) => .ok (some b)
      | .ok none => .ok none

/-- `Database::put_block`: write the serialized block under its own (stored)
hash into the Block column.  Nothing else is written — in particular the
`last_block` pointer is not touched. -/
def Database.putBlock (db : DB) (b : Block) : DB :=
  { db with blockCf := cfPut db.blockCf b.hash (serializeBlock b) }

/-! ## Mining engine (`miner.rs`) -/

/-- `miner::MinerError`. -/
inductive MinerError
  | miningError
  | databaseError (e : DatabaseError)
deriving DecidableEq

/-- `miner::Miner` (the address string and its derived 20-byte pubkey hash
are fixed at construction; the database handle is passed explicitly). -/
structure Miner where
  pubKeyHash : List Nat         -- [u8; 20]
  txPool : List Transaction     -- RefCell<Vec<Transaction>>
  currentDifficulty : Nat       -- u8
  currentReward : Nat           -- f32 bits; `Miner::new` sets 50.0
deriving DecidableEq

/-- `Miner::verify_tx` — the pluggable validity hook, trivially `true`. -/
def Miner.verifyTx (_ : Miner) (_ : Transaction) : Bool := true

/-- `Miner::add_tx_to_tx_pool`. -/
def Miner.addTxToTxPool (m : Miner) (tx : Transaction) : Miner × Bool :=
  if m.verifyTx tx then ({ m with txPool := m.txPool ++ [tx] }, true) else (m, false)

/-- `Miner::clear_tx_pool` — the entire body is commented out in the source,
so the pool is left untouched. -/
def Miner.clearTxPool (m : Miner) : Miner := m

/-- `Miner::mine`.  When `get_last_block` yields no block the `if let` falls
through to `Err(MinerError::MiningError)`; otherwise a fresh block is filled
with the pool, chained to the tip (the source calls a `get_index` getter and
passes `&last_block` where `Option<&Block>` is expected — modelled by the
evident intent `index + 1`, `prev_hash = last.hash`), mined, stored, and the
pool is "cleared".  `none` models a search that is still running. -/
def Miner.mine (fuel : Nat) (now : Option Nat) (m : Miner) (db : DB) :
    Option (Except MinerError Unit × Miner × DB) :=
  match Database.getLastBlock db with
  | .error e => some (.error (.databaseError e), m, db)
  | .ok none => some (.error .miningError, m, db)
  | .ok (some last) =>
      let b0 := m.txPool.foldl (fun b tx => b.addTransaction tx) Block.new
      let b1 := Block.setIndex b0 ((last.index + 1) % 4294967296)
      let b2 := (Block.setPrevHashFromBlock b1 (some last)).1
      match Block.mine fuel now b2 m.currentDifficulty m.currentReward m.pubKeyHash with
      | none => none
      | some (.ok b3) => some (.ok (), Miner.clearTxPool m, Database.putBlock db b3)
      | some (.error _) => some (.error .miningError, m, db)

/-! ## Wallet (`wallet.rs`) -/

/-- `wallet::WalletError`. -/
inductive WalletError
  | ioFailure
  | invalidTxSig
  | indexOutOfRange
  | invalidSigningKey
  | notEnoughFunds
  | hexDecode
  | cryptoFailure (e : CryptoError)
deriving DecidableEq

/-- Outcome of a wallet operation, with a distinguished `panicked` state for
out-of-bounds `Vec` indexing. -/
inductive SpendResult (α : Type)
  | ok (a : α)
  | err (e : WalletError)
  | panicked
deriving DecidableEq

/-- `wallet::Wallet`, reduced to what `create_transaction` reads: the current
key's public-key bytes (elliptic-curve derivation is external) and the UTXO
snapshot. -/
structure Wallet where
  publicKey : List Nat
  utxo : List UTXO
deriving DecidableEq

/-- `Wallet::get_public_key_hash`: derive the address from the current key,
then decode it back to the 20-byte pubkey hash (the `?` operator converts
the `CryptoError` into a `WalletError`). -/
def Wallet.getPublicKeyHash (w : Wallet) : Except WalletError (List Nat) :=
  (addressToPublicKeyHash (getAddress w.publicKey)).mapError WalletError.cryptoFailure

/-- `Wallet::get_and_set_utxo`: the stubbed provider pushes two fixed
entries (amounts `10.0` and `5.0`). -/
def Wallet.getAndSetUtxo (w : Wallet) : Wallet :=
  { w with utxo := w.utxo ++
      [UTXO.new (List.replicate 32 1) 123 0x41200000,
       UTXO.new (List.replicate 32 2) 123 0x40A00000] }

/-- The body of `Wallet::create_transaction` past the two unconditional
indexing operations: the `match self.get_public_key_hash()` applied to the
already computed result `res`.  (Factored out of `createTransaction` so
that the outer match's branch stays a plain application under reduction;
the composition is exactly the source's control flow.) -/
def spendBuild (pkBytes : List Nat) (res : Except WalletError (List Nat))
    (u0 u1 : UTXO) (amount : Nat) (destination : List Nat) : SpendResult Transaction :=
  let inputsTotalAmount := f32Add u0.amount u1.amount
  match res with
  | .ok walletPubKeyHash =>
      if f32Gt inputsTotalAmount amount then
        .ok (Transaction.new
          [TxIn.new 0 pkBytes u0.reference,
           TxIn.new 0 pkBytes u1.reference]
          [TxOut.new amount destination,
           TxOut.new (f32Sub inputsTotalAmount amount) walletPubKeyHash])
      else .err .notEnoughFunds
  | .error e => .err e

/-- `Wallet::create_transaction`: reads `utxo[0]` and `utxo[1]`
unconditionally (panicking when fewer than two entries exist), requires
`utxo[0].amount + utxo[1].amount > amount` strictly, and builds two inputs
plus a payment output and a change output back to the wallet. -/
def Wallet.createTransaction (w : Wallet) (amount : Nat) (destination : List Nat) :
    SpendResult Transaction :=
  match w.utxo[0]?, w.utxo[1]? with
  | some u0, some u1 =>
      spendBuild (hexEncode w.publicKey) w.getPublicKeyHash u0 u1 amount destination
  | _, _ => .panicked

/-! ## Round-trip of the persisted encoding -/

/-- Well-formedness of a `TxIn` mirrors the Rust types: `usize` fields fit
64 bits and the `[u8; 32]` array has 32 entries. -/
def TxIn.WF (i : TxIn) : Prop :=
  i.n < 18446744073709551616 ∧ i.prev_utxo.length = 32 ∧
  i.public_key.length < 18446744073709551616

instance : DecidablePred TxIn.WF := fun i => by unfold TxIn.WF; infer_instance

def TxOut.WF (o : TxOut) : Prop :=
  o.amount < 4294967296 ∧ o.destination.length = 20

instance : DecidablePred TxOut.WF := fun o => by unfold TxOut.WF; infer_instance

def Transaction.WF (t : Transaction) : Prop :=
  t.hash.length = 32 ∧ t.tx_in_sz < 18446744073709551616 ∧
  t.tx_out_sz < 18446744073709551616 ∧ t.signature.length < 18446744073709551616 ∧
  t.inputs.length < 18446744073709551616 ∧ t.outputs.length < 18446744073709551616 ∧
  (∀ i ∈ t.inputs, i.WF) ∧ (∀ o ∈ t.outputs, o.WF)

instance : DecidablePred Transaction.WF := fun t => by unfold Transaction.WF; infer_instance

def Block.WF (b : Block) : Prop :=
  b.index < 4294967296 ∧ b.hash.length = 32 ∧ b.prev_hash.length = 32 ∧
  b.timestamp < 340282366920938463463374607431768211456 ∧ b.merkle_root.length = 32 ∧
  b.transactions.length < 18446744073709551616 ∧ (∀ t ∈ b.transactions, t.WF) ∧
  b.nonce < 4294967296

instance : DecidablePred Block.WF := fun b => by unfold Block.WF; infer_instance

theorem leBytes_length (k : Nat) : ∀ n, (leBytes k n).length = k := by
  induction k with
  | zero => intro n; rfl
  | succ k ih => intro n; simp [leBytes, ih]

theorem leVal_leBytes (k : Nat) : ∀ n, n < 256 ^ k → leVal (leBytes k n) = n := by
  induction k with
  | zero =>
    intro n hn
    interval_cases n
    rfl
  | succ k ih =>
    intro n hn
    have hdiv : n / 256 < 256 ^ k := by
      rw [Nat.div_lt_iff_lt_mul (by norm_num)]
      calc n < 256 ^ (k + 1) := hn
        _ = 256 ^ k * 256 := by ring
    rw [leBytes, leVal, List.foldr_cons]
    have : leVal (leBytes k (n / 256)) = n / 256 := ih (n / 256) hdiv
    rw [leVal] at this
    rw [this]
    omega

theorem readBytes_exact (x r : List Nat) : readBytes x.length (x ++ r) = some (x, r) := by
  rw [readBytes, if_pos (by simp)]
  rw [List.take_left, List.drop_left]

theorem readBytes_of_length (k : Nat) (x r : List Nat) (hx : x.length = k) :
    readBytes k (x ++ r) = some (x, r) := by
  subst hx
  exact readBytes_exact x r

theorem readLE_round (k n : Nat) (r : List Nat) (hn : n < 256 ^ k) :
    readLE k (leBytes k n ++ r) = some (n, r) := by
  rw [readLE, readBytes_of_length k _ _ (leBytes_length k n)]
  simp [leVal_leBytes k n hn]

theorem readList_round {α : Type} (g : List Nat → Option (α × List Nat)) (f : α → List Nat) :
    ∀ (l : List α) (r : List Nat),
      (∀ x ∈ l, ∀ r', g (f x ++ r') = some (x, r')) →
      readList g l.length (l.foldr (fun x acc => f x ++ acc) [] ++ r) = some (l, r) := by
  intro l
  induction l with
  | nil => intro r _; rfl
  | cons x t ih =>
    intro r hg
    rw [List.length_cons, List.foldr_cons, List.append_assoc, readList,
      hg x (by simp) _]
    simp only [Option.bind_eq_bind, Option.some_bind]
    rw [ih r (fun y hy => hg y (by simp [hy]))]
    rfl

theorem readTxIn_round (i : TxIn) (r : List Nat) (h : i.WF) :
    readTxIn (serializeTxIn i ++ r) = some (i, r) := by
  obtain ⟨h1, h2, h3⟩ := h
  rw [readTxIn, serializeTxIn, List.append_assoc, List.append_assoc, List.append_assoc,
    readLE_round 8 _ _ h1]
  simp only [Option.bind_eq_bind, Option.some_bind]
  rw [readBytes_of_length 32 _ _ h2]
  simp only [Option.bind_eq_bind, Option.some_bind]
  rw [readLE_round 8 _ _ h3]
  simp only [Option.bind_eq_bind, Option.some_bind]
  rw [readBytes_exact]
  simp only [Option.bind_eq_bind, Option.some_bind]

theorem readTxOut_round (o : TxOut) (r : List Nat) (h : o.WF) :
    readTxOut (serializeTxOut o ++ r) = some (o, r) := by
  obtain ⟨h1, h2⟩ := h
  rw [readTxOut, serializeTxOut, List.append_assoc, readLE_round 4 _ _ h1]
  simp only [Option.bind_eq_bind, Option.some_bind]
  rw [readBytes_of_length 20 _ _ h2]
  simp only [Option.bind_eq_bind, Option.some_bind]

theorem readTransaction_round (t : Transaction) (r : List Nat) (h : t.WF) :
    readTransaction (serializeTransaction t ++ r) = some (t, r) := by
  obtain ⟨h1, h2, h3, h4, h5, h6, h7, h8⟩ := h
  rw [readTransaction, serializeTransaction, serializeList, serializeList]
  simp only [List.append_assoc]
  rw [readBytes_of_length 32 _ _ h1]
  simp only [Option.bind_eq_bind, Option.some_bind]
  rw [readLE_round 8 _ _ h2]
  simp only [Option.bind_eq_bind, Option.some_bind]
  rw [readLE_round 8 _ _ h3]
  simp only [Option.bind_eq_bind, Option.some_bind]
  rw [readLE_round 8 _ _ h4]
  simp only [Option.bind_eq_bind, Option.some_bind]
  rw [readBytes_exact]
  simp only [Option.bind_eq_bind, Option.some_bind]
  rw [readLE_round 8 _ _ h5]
  simp only [Option.bind_eq_bind, Option.some_bind]
  rw [readList_round readTxIn serializeTxIn t.inputs _
    (fun i hi r' => readTxIn_round i r' (h7 i hi))]
  simp only [Option.bind_eq_bind, Option.some_bind]
  rw [readLE_round 8 _ _ h6]
  simp only [Option.bind_eq_bind, Option.some_bind]
  rw [readList_round readTxOut serializeTxOut t.outputs _
    (fun o ho r' => readTxOut_round o r' (h8 o ho))]
  simp only [Option.bind_eq_bind, Option.some_bind]

theorem readBlock_round (b : Block) (r : List Nat) (h : b.WF) :
    readBlock (serializeBlock b ++ r) = some (b, r) := by
  obtain ⟨h1, h2, h3, h4, h5, h6, h7, h8⟩ := h
  rw [readBlock, serializeBlock, serializeList]
  simp only [List.append_assoc]
  rw [readLE_round 4 _ _ h1]
  simp only [Option.bind_eq_bind, Option.some_bind]
  rw [readBytes_of_length 32 _ _ h2]
  simp only [Option.bind_eq_bind, Option.some_bind]
  rw [readBytes_of_length 32 _ _ h3]
  simp only [Option.bind_eq_bind, Option.some_bind]
  rw [readLE_round 16 _ _ h4]
  simp only [Option.bind_eq_bind, Option.some_bind]
  rw [readBytes_of_length 32 _ _ h5]
  simp only [Option.bind_eq_bind, Option.some_bind]
  rw [readLE_round 8 _ _ h6]
  simp only [Option.bind_eq_bind, Option.some_bind]
  rw [readList_round readTransaction serializeTransaction b.transactions _
    (fun t ht r' => readTransaction_round t r' (h7 t ht))]
  simp only [Option.bind_eq_bind, Option.some_bind]
  rw [readLE_round 4 _ _ h8]
  simp only [Option.bind_eq_bind, Option.some_bind]

/-- The persisted encoding round-trips on every well-formed block. -/
theorem deserializeBlock_serializeBlock (b : Block) (h : b.WF) :
    deserializeBlock (serializeBlock b) = some b := by
  rw [deserializeBlock]
  have := readBlock_round b [] h
  rw [List.append_nil] at this
  rw [this]
  rfl

/-! ## Concrete fixtures for the counterexample theorems -/

/-- A stored chain-tip block with a concrete (nonzero) stored hash. -/
def c3Genesis : Block := { Block.new with hash := List.replicate 32 9 }

/-- A store holding `c3Genesis` both in the block column and as the
`last_block` pointer. -/
def c3DB : DB :=
  ⟨[(c3Genesis.hash, serializeBlock c3Genesis)], [(lastBlockKey, c3Genesis.hash)]⟩

/-- A pooled one-input transaction with a concrete stored hash. -/
def c3Tx : Transaction :=
  { Transaction.new [TxIn.new 0 [] (List.replicate 32 1)] [] with hash := List.replicate 32 7 }

/-- A miner holding `c3Tx` in its pool, difficulty 0, reward `50.0f32`. -/
def c3Miner : Miner := ⟨List.replicate 20 5, [c3Tx], 0, 0x42480000⟩

/-- The block `Miner::mine` assembles from `c3Miner`'s pool on top of
`c3Genesis` at timestamp 0 (pool transaction, then the reward transaction). -/
def c3Assembled : Block :=
  { index := 1, hash := List.replicate 32 0, prev_hash := List.replicate 32 9, timestamp := 0,
    merkle_root := List.replicate 32 0,
    transactions := [c3Tx, Transaction.new [] [TxOut.new 0x42480000 (List.replicate 20 5)]],
    nonce := 0 }

/-- The block committed by that `mine` call. -/
def c3Block : Block := Block.calculateHash c3Assembled

/-! ## Claim theorems -/

/-- C1: the spec requires the first `mine` on an empty Ledger Store to
produce the genesis block (index 0, zero `prev_hash`, one reward
transaction).  The code instead falls through the `if let` on
`get_last_block` and returns `Err(MinerError::MiningError)`, leaving the
miner and the store untouched: there is no genesis path at all. -/
theorem c1_mine_on_empty_store_fails (fuel : Nat) (now : Option Nat) (m : Miner) :
    Miner.mine fuel now m emptyDB = some (.error .miningError, m, emptyDB) := rfl

/-- C2: the spec requires `put_block` to write the block under its own hash
AND update the `last_block` pointer so that `get_last_block` returns it.
The code does write the serialized block under its stored hash (second
conjunct), but never touches the pointer column, so `get_last_block` on a
previously empty store still yields `Ok(None)` (first conjunct). -/
theorem c2_put_block_leaves_pointer_unset :
    Database.getLastBlock (Database.putBlock emptyDB Block.new) = .ok none ∧
    Database.getBlock (Database.putBlock emptyDB Block.new) Block.new.hash =
      .ok (some Block.new) :=
  ⟨rfl, by decide⟩

/-- C3: the spec requires a successful `mine` to remove from the pool every
transaction whose hash appears in the committed block.  `clear_tx_pool`'s
body is commented out, so after a successful mine (first conjunct; the
resulting miner is `c3Miner` itself) the pool still maps to the hash of
`c3Tx` (third conjunct) even though that hash is among the committed
block's non-reward transactions (second conjunct). -/
theorem c3_pool_not_cleared :
    Miner.mine 1 (some 0) c3Miner c3DB = some (.ok (), c3Miner, Database.putBlock c3DB c3Block) ∧
    (c3Block.transactions.filter (fun tx => !tx.inputs.isEmpty)).map Transaction.hash =
      [c3Tx.hash] ∧
    c3Miner.txPool.map Transaction.hash = [c3Tx.hash] := by
  refine ⟨rfl, rfl, rfl⟩

/-- C10: `Wallet::create_transaction` reads `utxo[0]` and `utxo[1]`
unconditionally, so with fewer than two snapshot entries it panics on
out-of-bounds indexing instead of returning `NotEnoughFunds`. -/
theorem c10_create_transaction_panics_without_two_utxos (w : Wallet) (amount : Nat)
    (destination : List Nat) (h : w.utxo.length < 2) :
    w.createTransaction amount destination = .panicked := by
  rcases hu : w.utxo with _ | ⟨u, rest⟩
  · simp [Wallet.createTransaction, hu]
  · rcases hr : rest with _ | ⟨v, rest2⟩
    · simp [Wallet.createTransaction, hu, hr]
    · exfalso
      rw [hu, hr] at h
      simp only [List.length_cons] at h
      omega

/-- C10 witness: a wallet with an empty UTXO snapshot panics. -/
theorem c10_witness :
    (Wallet.mk [] []).utxo.length < 2 ∧
    Wallet.createTransaction (Wallet.mk [] []) 0 [] = .panicked :=
  ⟨by decide, c10_create_transaction_panics_without_two_utxos (Wallet.mk [] []) 0 [] (by decide)⟩

/-- Entering the proof-of-work loop with an up-to-date hash is preserved:
`calculate_hash` writes exactly the SHA-256 of the header concatenation,
and the concatenation does not read the `hash` field. -/
theorem calculateHash_invar (b : Block) :
    (Block.calculateHash b).hash = sha256 (Block.calculateHash b).concatenate := rfl

/-- Loop invariant of `mine_until_done`: any block the search returns has
`hash = SHA256(concatenate)` and at least `d` leading zero hex digits. -/
theorem mineUntilDoneAux_spec :
    ∀ (fuel d : Nat) (b r : Block),
      b.hash = sha256 b.concatenate →
      Block.mineUntilDoneAux fuel d b = some r →
      r.hash = sha256 r.concatenate ∧ d ≤ leadingZerosCount (hexEncode r.hash) := by
  intro fuel
  induction fuel with
  | zero =>
    intro d b r _ h
    exact absurd h (by rw [Block.mineUntilDoneAux]; simp)
  | succ f ih =>
    intro d b r hb h
    rw [Block.mineUntilDoneAux] at h
    by_cases hc : leadingZerosCount (hexEncode b.hash) < d
    · rw [if_pos hc] at h
      exact ih d _ r (calculateHash_invar _) h
    · rw [if_neg hc] at h
      have hbr : b = r := by
        simpa using h
      subst hbr
      exact ⟨hb, by omega⟩

/-- C4: every block returned by a successful `Block::mine` at difficulty `d`
has `hash = SHA256(decimal index ∥ hex prev_hash ∥ decimal timestamp ∥ hex
merkle_root ∥ decimal nonce)` and at least `d` leading `'0'` characters in
its hex-encoded hash; and at difficulty 0 the search succeeds on the first
attempt (one hash computation, any positive fuel) leaving a zero nonce
untouched. -/
theorem c4_proof_of_work (fuel d reward : Nat) (now : Option Nat) (b r : Block)
    (pk : List Nat) :
    (Block.mine fuel now b d reward pk = some (.ok r) →
      r.hash = sha256 r.concatenate ∧ d ≤ leadingZerosCount (hexEncode r.hash)) ∧
    (b.nonce = 0 →
      ∀ f', Block.mineUntilDone (f' + 1) b 0 = some b.calculateHash ∧
        b.calculateHash.nonce = 0) := by
  constructor
  · intro h
    cases now with
    | none =>
      rw [Block.mine] at h
      exact absurd h (by simp)
    | some t =>
      rw [Block.mine] at h
      rcases hm : Block.mineUntilDone fuel
          (Block.addTransaction { b with timestamp := t }
            (Transaction.new [] [TxOut.new reward pk])) d with _ | b3
      · rw [hm] at h
        exact absurd h (by simp)
      · rw [hm] at h
        have hb3 : b3 = r := by
          simpa using h
        subst hb3
        rw [Block.mineUntilDone] at hm
        exact mineUntilDoneAux_spec fuel d _ b3 (calculateHash_invar _) hm
  · intro hn f'
    constructor
    · rw [Block.mineUntilDone, Block.mineUntilDoneAux, if_neg (Nat.not_lt_zero _)]
    · show b.nonce = 0
      exact hn

/-- C4 witness: mining the fresh block at difficulty 0 with fuel 1. -/
theorem c4_witness :
    ((Block.calculateHash
        { index := 0, hash := List.replicate 32 0, prev_hash := List.replicate 32 0,
          timestamp := 0, merkle_root := List.replicate 32 0,
          transactions := [Transaction.new [] [TxOut.new 0 []]], nonce := 0 }).hash =
      sha256 (Block.calculateHash
        { index := 0, hash := List.replicate 32 0, prev_hash := List.replicate 32 0,
          timestamp := 0, merkle_root := List.replicate 32 0,
          transactions := [Transaction.new [] [TxOut.new 0 []]], nonce := 0 }).concatenate ∧
      0 ≤ leadingZerosCount (hexEncode (Block.calculateHash
        { index := 0, hash := List.replicate 32 0, prev_hash := List.replicate 32 0,
          timestamp := 0, merkle_root := List.replicate 32 0,
          transactions := [Transaction.new [] [TxOut.new 0 []]], nonce := 0 }).hash)) ∧
    (Block.mineUntilDone 1 Block.new 0 = some Block.new.calculateHash ∧
      Block.new.calculateHash.nonce = 0) :=
  ⟨(c4_proof_of_work 1 0 0 (some 0) Block.new
      (Block.calculateHash
        { index := 0, hash := List.replicate 32 0, prev_hash := List.replicate 32 0,
          timestamp := 0, merkle_root := List.replicate 32 0,
          transactions := [Transaction.new [] [TxOut.new 0 []]], nonce := 0 }) []).1 rfl,
   (c4_proof_of_work 1 0 0 (some 0) Block.new Block.new []).2 rfl 0⟩

/-- C7: decoding the derived address recovers the public-key hash —
`address_to_public_key_hash(get_address(key))` succeeds and yields exactly
`RIPEMD160(SHA256(public_key))`, for every public key the external curve
library can hand over. -/
theorem c7_address_decode_left_inverse (publicKey : List Nat) :
    addressToPublicKeyHash (getAddress publicKey) = .ok (ripemd160 (sha256 publicKey)) :=
  addressToPublicKeyHash_getAddress publicKey

/-- Shared helper: the wallet's pubkey-hash lookup always succeeds with the
derived hash (address derivation followed by decoding). -/
theorem wallet_getPublicKeyHash_eq (w : Wallet) :
    w.getPublicKeyHash = .ok (getPublicKeyHash w.publicKey) := by
  rw [Wallet.getPublicKeyHash, addressToPublicKeyHash_getAddress]
  rfl

/-- A change destination for the wallet fixtures. -/
def c8Dest : List Nat := List.replicate 20 4

/-- A wallet whose snapshot has three 5.0 UTXOs. -/
def c8Wallet3 : Wallet :=
  ⟨[], [UTXO.new (List.replicate 32 1) 0 0x40A00000,
        UTXO.new (List.replicate 32 2) 1 0x40A00000,
        UTXO.new (List.replicate 32 3) 2 0x40A00000]⟩

/-- A wallet whose snapshot has two 5.0 UTXOs. -/
def c8Wallet2 : Wallet :=
  ⟨[], [UTXO.new (List.replicate 32 1) 0 0x40A00000,
        UTXO.new (List.replicate 32 2) 1 0x40A00000]⟩

/-- C8 counterexample: with three 5.0 UTXOs (total 15.0) and a requested
amount of 7.0, `create_transaction` succeeds but the change output is
`utxo[0]+utxo[1]-amount = 3.0`, not `total-amount = 8.0` as the claim
("sum of the available output amounts") requires. -/
theorem c8_counterexample :
    Wallet.createTransaction c8Wallet3 0x40E00000 c8Dest =
      .ok (Transaction.new
        [TxIn.new 0 (hexEncode c8Wallet3.publicKey) (List.replicate 32 1),
         TxIn.new 0 (hexEncode c8Wallet3.publicKey) (List.replicate 32 2)]
        [TxOut.new 0x40E00000 c8Dest,
         TxOut.new 0x40400000 (getPublicKeyHash c8Wallet3.publicKey)]) ∧
    f32Sub (f32Add (f32Add 0x40A00000 0x40A00000) 0x40A00000) 0x40E00000 = 0x41000000 ∧
    (0x40400000 : Nat) ≠ 0x41000000 := by
  refine ⟨by decide, by decide, by decide⟩

/-- C8 (amended): with at least two snapshot entries, `create_transaction`
fails with `NotEnoughFunds` whenever `utxo[0].amount + utxo[1].amount ≤
amount` in f32 (equality also fails: the comparison is strict), and
otherwise succeeds with exactly one payment output of `amount` and one
change output of `utxo[0]+utxo[1]-amount` paid back to the wallet's own
public-key hash; only the first two snapshot entries ever participate. -/
theorem c8_spend_first_two_utxos (w : Wallet) (amount : Nat) (destination : List Nat)
    (u0 u1 : UTXO) (h0 : w.utxo[0]? = some u0) (h1 : w.utxo[1]? = some u1) :
    (f32Gt (f32Add u0.amount u1.amount) amount = false →
      w.createTransaction amount destination = .err .notEnoughFunds) ∧
    (f32Gt (f32Add u0.amount u1.amount) amount = true →
      w.createTransaction amount destination = .ok (Transaction.new
        [TxIn.new 0 (hexEncode w.publicKey) u0.reference,
         TxIn.new 0 (hexEncode w.publicKey) u1.reference]
        [TxOut.new amount destination,
         TxOut.new (f32Sub (f32Add u0.amount u1.amount) amount)
           (getPublicKeyHash w.publicKey)])) := by
  constructor <;> intro hgt
  · rw [Wallet.createTransaction, h0, h1]
    dsimp only []
    rw [wallet_getPublicKeyHash_eq]
    simp only [spendBuild, hgt, Bool.false_eq_true, if_false]
  · rw [Wallet.createTransaction, h0, h1]
    dsimp only []
    rw [wallet_getPublicKeyHash_eq]
    simp only [spendBuild, hgt, if_true]

/-- C8 witness: two 5.0 UTXOs, spending 7.0 succeeds with change 3.0. -/
theorem c8_witness :
    Wallet.createTransaction c8Wallet2 0x40E00000 c8Dest = .ok (Transaction.new
      [TxIn.new 0 (hexEncode c8Wallet2.publicKey) (List.replicate 32 1),
       TxIn.new 0 (hexEncode c8Wallet2.publicKey) (List.replicate 32 2)]
      [TxOut.new 0x40E00000 c8Dest,
       TxOut.new (f32Sub (f32Add 0x40A00000 0x40A00000) 0x40E00000)
         (getPublicKeyHash c8Wallet2.publicKey)]) :=
  (c8_spend_first_two_utxos c8Wallet2 0x40E00000 c8Dest
    (UTXO.new (List.replicate 32 1) 0 0x40A00000)
    (UTXO.new (List.replicate 32 2) 1 0x40A00000) rfl rfl).2 (by decide)

/-- A 25-byte Base58Check payload whose 4-byte checksum is wrong:
version 0, pubkey hash `0x11…11`, checksum bytes `00 00 00 00`. -/
def c5Payload : List Nat := 0 :: (List.replicate 20 17 ++ [0, 0, 0, 0])

/-- C5: the spec requires addresses whose decoded payload is 25 bytes but
whose checksum does not match `SHA256(SHA256(version ∥ hash))[0..4]` to be
rejected.  The code checks only the decode success and the 25-byte length:
for the address encoding `c5Payload` (whose stored checksum `00000000` is
wrong, third conjunct) it happily returns the 20-byte hash. -/
theorem c5_checksum_not_verified :
    fromBase58 (toBase58 c5Payload) = some c5Payload ∧
    addressToPublicKeyHash (toBase58 c5Payload) = .ok (List.replicate 20 17) ∧
    getCheckSum (c5Payload.take 21) ≠ c5Payload.drop 21 := by
  refine ⟨by decide, by decide, by decide⟩

/-- C6 counterexample: two transactions with identical inputs, outputs and
signature but different hashes.  `Transaction::new([input], [])` stores
`tx_in_sz = 1`, while `Transaction::new([], [])` followed by
`add_tx_input(input)` leaves `tx_in_sz = 0` (the setter does not update the
stored count), and the stored count feeds the content hash. -/
theorem c6_counterexample :
    ((Transaction.new [TxIn.new 0 [] (List.replicate 32 1)] []).hashTx.inputs =
        ((Transaction.new [] []).addTxInput (TxIn.new 0 [] (List.replicate 32 1))).hashTx.inputs ∧
      (Transaction.new [TxIn.new 0 [] (List.replicate 32 1)] []).hashTx.outputs =
        ((Transaction.new [] []).addTxInput (TxIn.new 0 [] (List.replicate 32 1))).hashTx.outputs ∧
      (Transaction.new [TxIn.new 0 [] (List.replicate 32 1)] []).hashTx.signature =
        ((Transaction.new [] []).addTxInput (TxIn.new 0 [] (List.replicate 32 1))).hashTx.signature) ∧
    (Transaction.new [TxIn.new 0 [] (List.replicate 32 1)] []).hashTx.hash ≠
      ((Transaction.new [] []).addTxInput (TxIn.new 0 [] (List.replicate 32 1))).hashTx.hash := by
  refine ⟨⟨rfl, rfl, rfl⟩, by decide⟩

/-- C6 (amended): (1) the computed content hash is exactly
`SHA256(signature ∥ decimal tx_in_sz ∥ decimal tx_out_sz ∥
hex(SHA256(concatenated per-input hashes)) ∥ hex(SHA256(concatenated
per-output hashes)))` — with the two stored size fields, which track the
input/output lists only for transactions built by `Transaction::new` and
not mutated through `add_tx_input`/`add_tx_output`; (2) recomputing the
hash from unchanged fields is idempotent; (3) two transactions agreeing on
inputs, outputs, signature AND both stored size fields have equal hashes. -/
theorem c6_transaction_hash (t t' : Transaction) :
    t.hashTx.hash =
      sha256 (t.signature ++ decimalBytes t.tx_in_sz ++ decimalBytes t.tx_out_sz ++
        hexEncode (sha256 t.getConcatenatedInputs) ++
        hexEncode (sha256 t.getConcatenatedOutputs)) ∧
    t.hashTx.hashTx = t.hashTx ∧
    (t.inputs = t'.inputs → t.outputs = t'.outputs → t.signature = t'.signature →
      t.tx_in_sz = t'.tx_in_sz → t.tx_out_sz = t'.tx_out_sz →
      t.hashTx.hash = t'.hashTx.hash) := by
  refine ⟨rfl, rfl, ?_⟩
  intro h1 h2 h3 h4 h5
  show sha256 (Transaction.getTransactionData t true) =
    sha256 (Transaction.getTransactionData t' true)
  simp only [Transaction.getTransactionData, Transaction.calculateInputsHash,
    Transaction.calculateOutputsHash, Transaction.getConcatenatedInputs,
    Transaction.getConcatenatedOutputs, h1, h2, h3, h4, h5]

/-- C6 witness: hashing does not read the stored hash, so a transaction and
its hashed copy (same inputs/outputs/signature/counts, different `hash`
field) hash identically. -/
theorem c6_witness :
    (Transaction.new [] []).hashTx.hash = (Transaction.new [] []).hashTx.hashTx.hash :=
  (c6_transaction_hash (Transaction.new [] []) (Transaction.new [] []).hashTx).2.2
    rfl rfl rfl rfl rfl

/-- C9: the persisted block encoding round-trips bit-for-bit on every
well-formed block (all fields within their Rust types' ranges), and
`get_block(hash(b))` right after `put_block(b)` returns `b` again. -/
theorem c9_block_encoding_roundtrip (b : Block) (db : DB) (h : b.WF) :
    deserializeBlock (serializeBlock b) = some b ∧
    Database.getBlock (Database.putBlock db b) b.hash = .ok (some b) := by
  have hround := deserializeBlock_serializeBlock b h
  refine ⟨hround, ?_⟩
  simp only [Database.getBlock, Database.putBlock, getBlockCf, cfGet, cfPut, List.lookup,
    beq_self_eq_true, hround]

/-- C9 witness: the fresh block is well-formed and round-trips. -/
theorem c9_witness :
    Block.new.WF ∧
    (deserializeBlock (serializeBlock Block.new) = some Block.new ∧
      Database.getBlock (Database.putBlock emptyDB Block.new) Block.new.hash =
        .ok (some Block.new)) :=
  ⟨by decide, c9_block_encoding_roundtrip Block.new emptyDB (by decide)⟩

end PoW
